import Mathlib

/-!
Verification of the GEDCOM import pipeline (gedcomService / dbUtils).

The definitions below are a shallow embedding of the TypeScript source:

- `GedcomNode` models the parse-gedcom node shape the service reads:
  a tag (`type`), an optional raw `value`, the optional `data.pointer`,
  `data.value` and `data.xref_id` fields, and optional `children`.
- JavaScript string truthiness (`a || b` falling through on `undefined`
  and the empty string) is modelled by `jsOr`.
- Database saves are modelled by an `Attempt` trace: each save site
  produces one trace entry carrying the record it tried to persist and
  whether the save succeeded; a failure oracle (`fails`) stands for the
  persistence layer.  A thrown save is the entry with `ok = false`; the
  surrounding try/catch granularity of the source is reflected in which
  later entries are emitted.
- Name splitting works on `List Char`, mirroring the JavaScript string
  operations `split`, `replace` and `trim` (whitespace approximated by
  the ASCII whitespace characters).
-/

namespace TView

/-- Parsed GEDCOM node as the service consumes it: the tag, the raw value,
and the fields of the parser's `data` object that the service reads
(`pointer`, `value`, `xref_id`), plus the optional child list. -/
inductive GedcomNode : Type where
  | mk : String → Option String → Option String → Option String → Option String →
      Option (List GedcomNode) → GedcomNode

/-- Tag of the node (`node.type`). -/
def GedcomNode.type : GedcomNode → String
  | .mk t _ _ _ _ _ => t

/-- Raw value of the node (`node.value`). -/
def GedcomNode.value : GedcomNode → Option String
  | .mk _ v _ _ _ _ => v

/-- The parser's `node.data?.pointer`. -/
def GedcomNode.dataPointer : GedcomNode → Option String
  | .mk _ _ p _ _ _ => p

/-- The parser's `node.data?.value`. -/
def GedcomNode.dataValue : GedcomNode → Option String
  | .mk _ _ _ v _ _ => v

/-- The parser's `node.data?.xref_id`. -/
def GedcomNode.dataXrefId : GedcomNode → Option String
  | .mk _ _ _ _ x _ => x

/-- Child list of the node (`node.children`), which may be absent. -/
def GedcomNode.children : GedcomNode → Option (List GedcomNode)
  | .mk _ _ _ _ _ c => c

/-- JavaScript `a || b` for an optional string `a`: `undefined` and the
empty string fall through to `b`. -/
def jsOr (a : Option String) (b : String) : String :=
  match a with
  | some s => if s = "" then b else s
  | none => b

/-- Children of a node, `node.children` defaulting to the empty list
(the source guards every access with `?.`). -/
def childrenOf (n : GedcomNode) : List GedcomNode :=
  (n.children).getD []

/-- First child with the given tag: `children?.find((node) => node.type === t)`. -/
def findType (ns : List GedcomNode) (t : String) : Option GedcomNode :=
  ns.find? (fun n => n.type == t)

/-- All children with the given tag: `children?.filter((node) => node.type === t)`. -/
def filterType (ns : List GedcomNode) (t : String) : List GedcomNode :=
  ns.filter (fun n => n.type == t)

/-! ## Date normalizer (`server/src/utils/dateUtils.ts`, `safeDate`)

Native date parsing (`new Date(s)` followed by the `isNaN(getTime())`
check) is abstracted as a function `parse : String → Option Int`
returning the timestamp, `none` when the native parser rejects the
string.  A `none` input stands for `null`/`undefined`.  The embedding is
a total function: the source body contains no `throw` and `new Date`
never throws on a string, so no exceptional outcome exists to model. -/

/-- Model of `safeDate`: `if (!dateString) return null;` (falsy covers
`null`, `undefined` and `""`), then `isNaN(new Date(s).getTime()) ? null : date`. -/
def safeDate (parse : String → Option Int) : Option String → Option Int
  | none => none
  | some s => if s = "" then none else parse s

/-! ## Name splitting (`createPersonFromGedcom`, NAME handling)

The source line is
`fullName.includes('/') ? fullName.split('/').map((s) => s.replace(/\x2f/g, '').trim()) : [fullName, '']`
followed by the destructuring `[given, surname]`.  Strings are modelled
as `List Char` so the split/trim algebra is provable. -/

/-- ASCII whitespace, approximating what JavaScript `trim` removes. -/
def isJsSpace (c : Char) : Bool :=
  c = ' ' || c = '\t' || c = '\n' || c = '\r'

/-- Model of JavaScript `String.prototype.trim`. -/
def trimChars (l : List Char) : List Char :=
  ((l.dropWhile isJsSpace).reverse.dropWhile isJsSpace).reverse

/-- Model of JavaScript `String.prototype.split` with a one-character
separator: fields between separator occurrences, empty fields kept. -/
def splitChar (c : Char) : List Char → List (List Char)
  | [] => [[]]
  | x :: xs =>
    if x = c then [] :: splitChar c xs
    else
      match splitChar c xs with
      | [] => [[x]]
      | f :: r => (x :: f) :: r

/-- Model of one NAME value's split, from `createPersonFromGedcom`:
when the value contains a slash, split on the slash, strip remaining
slashes from each field and trim it, and take the first two fields as
given and surname (a value containing a slash always splits into at
least two fields, so the destructuring never yields `undefined`);
otherwise the pair is the whole value, untrimmed, with empty surname. -/
def splitName (fullName : List Char) : List Char × List Char :=
  if fullName.contains '/' then
    let parts := (splitChar '/' fullName).map
      (fun s => trimChars (s.filter (fun c => c != '/')))
    (parts.headD [], parts.tail.headD [])
  else (fullName, [])

/-- Names extracted for an individual: one `splitName` per NAME child,
on the child's value defaulted to the empty string. -/
def extractNames (individual : GedcomNode) : List (List Char × List Char) :=
  (filterType (childrenOf individual) "NAME").map
    (fun n => splitName (jsOr n.value "").data)

/-- Spec-side reading of the claim: the text before the first slash. -/
def beforeFirstSlash (v : List Char) : List Char :=
  v.takeWhile (fun c => c != '/')

/-- Spec-side reading of the claim: the text between the first and the
second slash. -/
def betweenSlashes (v : List Char) : List Char :=
  ((v.dropWhile (fun c => c != '/')).tail).takeWhile (fun c => c != '/')

/-! Helper lemmas about `splitChar`. -/

/-- Decomposition of `splitChar`: the first field is the prefix before
the first separator, the rest is the split of what follows it. -/
theorem splitChar_eq (c : Char) (l : List Char) :
    splitChar c l =
      if c ∈ l then
        (l.takeWhile (fun x => x != c)) ::
          splitChar c ((l.dropWhile (fun x => x != c)).tail)
      else [l] := by
  induction l with
  | nil => simp [splitChar]
  | cons x xs ih =>
    by_cases hx : x = c
    · subst hx
      simp [splitChar, List.takeWhile_cons, List.dropWhile_cons]
    · have hxc : (x != c) = true := by simp [bne, hx]
      rw [splitChar]
      rw [if_neg hx]
      by_cases hm : c ∈ xs
      · rw [ih]
        rw [if_pos hm]
        have hmem : c ∈ x :: xs := List.mem_cons_of_mem _ hm
        rw [if_pos hmem]
        simp [List.takeWhile_cons, List.dropWhile_cons, hxc]
      · rw [ih, if_neg hm]
        have hnm : ¬ c ∈ x :: xs := by
          intro h
          rcases List.mem_cons.mp h with h1 | h2
          · exact hx h1.symm
          · exact hm h2
        rw [if_neg hnm]

theorem count_takeWhile_ne (c : Char) (l : List Char) :
    (l.takeWhile (fun x => x != c)).count c = 0 := by
  rw [List.count_eq_zero]
  intro hm
  have hbne := List.mem_takeWhile_imp (p := fun x => x != c) hm
  simp [bne] at hbne

theorem filter_takeWhile_ne (c : Char) (l : List Char) :
    (l.takeWhile (fun x => x != c)).filter (fun x => x != c) =
      l.takeWhile (fun x => x != c) := by
  rw [List.filter_eq_self]
  intro a ha
  exact List.mem_takeWhile_imp (p := fun x => x != c) ha

/-- With at least one separator present, the drop-prefix starts with the
separator itself. -/
theorem dropWhile_ne_head (c : Char) (l : List Char) (h : c ∈ l) :
    l.dropWhile (fun x => x != c) = c :: (l.dropWhile (fun x => x != c)).tail := by
  induction l with
  | nil => simp at h
  | cons x xs ih =>
    by_cases hx : x = c
    · subst hx
      simp [List.dropWhile_cons]
    · have hxc : (x != c) = true := by simp [bne, hx]
      rw [List.dropWhile_cons, if_pos hxc]
      apply ih
      rcases List.mem_cons.mp h with h1 | h2
      · exact absurd h1.symm hx
      · exact h2

theorem count_eq_count_take_add (c : Char) (l : List Char) :
    l.count c = (l.takeWhile (fun x => x != c)).count c +
      (l.dropWhile (fun x => x != c)).count c := by
  conv_lhs => rw [← List.takeWhile_append_dropWhile (p := fun x => x != c) (l := l)]
  rw [List.count_append]

/-- Claim C4, amended: for a NAME value with exactly one surname pair
(two slashes), the extracted given name is the trimmed text before the
first slash and the surname the trimmed text between the slashes; for a
value without slashes, the given name is the whole value as-is (not
trimmed) and the surname is empty. -/
theorem C4_amended_splitName (v : List Char) :
    (v.count '/' = 2 →
      splitName v =
        (trimChars (beforeFirstSlash v), trimChars (betweenSlashes v))) ∧
    (v.count '/' = 0 → splitName v = (v, [])) := by
  constructor
  · intro h2
    have hc : '/' ∈ v := List.count_pos_iff.mp (by omega)
    have hrest : ((v.dropWhile (fun x => x != '/')).tail).count '/' = 1 := by
      have hsplit := count_eq_count_take_add '/' v
      have htk := count_takeWhile_ne '/' v
      have hd := dropWhile_ne_head '/' v hc
      have hdc : (v.dropWhile (fun x => x != '/')).count '/' =
          ((v.dropWhile (fun x => x != '/')).tail).count '/' + 1 := by
        conv_lhs => rw [hd]
        simp [List.count_cons]
      omega
    have hrestc : '/' ∈ (v.dropWhile (fun x => x != '/')).tail :=
      List.count_pos_iff.mp (by omega)
    have hcb : v.contains '/' = true := by simpa using hc
    rw [splitName, if_pos hcb]
    rw [splitChar_eq, if_pos hc]
    rw [splitChar_eq, if_pos hrestc]
    simp only [List.map_cons, List.headD_cons, List.tail_cons]
    rw [filter_takeWhile_ne, filter_takeWhile_ne]
    rfl
  · intro h0
    have hc : '/' ∉ v := List.count_eq_zero.mp h0
    rw [splitName, if_neg (by simpa using hc)]

/-- Claim C4 fails as stated on a slash-free NAME whose value has
surrounding whitespace: extraction keeps the value untrimmed.  The
individual below has one NAME child with value `" John "`; the code
yields given `" John "` and surname `""`, while the claim demands the
trimmed `"John"`. -/
theorem C4_counterexample :
    extractNames (GedcomNode.mk "INDI" none none none none
        (some [GedcomNode.mk "NAME" (some " John ") none none none none])) =
      [((" John ".data), ([] : List Char))] ∧
    trimChars (" John ".data) = "John".data ∧
    (" John ".data) ≠ ("John".data) := by
  refine ⟨by decide, by decide, by decide⟩

/-- Claim C5: for a missing value (`null`/`undefined`), the empty string,
or any string the native date parser rejects, `safeDate` returns `null`.
The embedding is a total function over `Option String`, reflecting that
the source body can raise no exception on any input. -/
theorem C5_safeDate_null_on_reject (parse : String → Option Int)
    (input : Option String)
    (h : input = none ∨ input = some "" ∨ ∃ s, input = some s ∧ parse s = none) :
    safeDate parse input = none := by
  rcases h with h | h | ⟨s, hs, hp⟩
  · rw [h]; rfl
  · rw [h]; rfl
  · rw [hs, safeDate]
    by_cases he : s = ""
    · rw [if_pos he]
    · rw [if_neg he]; exact hp

/-- Witness for C5 at a concrete rejected string. -/
theorem C5_safeDate_null_on_reject_witness :
    safeDate (fun _ => none) (some "not a date") = none :=
  C5_safeDate_null_on_reject (fun _ => none) (some "not a date")
    (Or.inr (Or.inr ⟨"not a date", rfl, rfl⟩))

/-! ## Relationship synthesizer (`createRelationshipsFromFamily`)

Each database `save()` in the function is modelled as one `Attempt` in a
trace: the `role` is the save site (marriage event, spouse relationship,
father/mother link for the i-th CHIL node, sibling link for the (i,j)
pair of CHIL nodes), the `rec` the record handed to the save, and `ok`
whether the save succeeded.  A failure oracle `fails : Role → Bool`
stands for the persistence layer throwing at that site.  The source
wraps saves in try/catch blocks: a catch ends the current block but
processing continues, which the trace reflects by which entries follow a
failed one. -/

/-- Save site inside one family's processing. -/
inductive Role : Type where
  | marrEvent : Role
  | spouseRel : Role
  | fatherRel : Nat → Role
  | motherRel : Nat → Role
  | sibRel : Nat → Nat → Role
  deriving DecidableEq, Repr

/-- Record handed to a save: an Event document or a Relationship
document, with the fields the function fills. -/
inductive DbRec : Type where
  | ev : String → String → List String → Option Int → String → DbRec
  | rel : String → List String → Option Int → DbRec
  deriving DecidableEq, Repr

/-- Persons list of a record. -/
def DbRec.persons : DbRec → List String
  | .ev _ _ ps _ _ => ps
  | .rel _ ps _ => ps

/-- Whether the record is a Relationship of the given type. -/
def DbRec.isRelOf (r : DbRec) (t : String) : Bool :=
  match r with
  | .rel rt _ _ => rt == t
  | .ev _ _ _ _ _ => false

/-- Whether the record is a Marriage event. -/
def DbRec.isMarriageEvent : DbRec → Bool
  | .ev t _ _ _ _ => t == "Marriage"
  | .rel _ _ _ => false

/-- One attempted save: its site, its record, and whether it succeeded. -/
structure Attempt : Type where
  role : Role
  record : DbRec
  ok : Bool
  deriving DecidableEq, Repr

/-- Records the persistence layer accepted in a trace. -/
def savedRecs (l : List Attempt) : List DbRec :=
  (l.filter (fun a => a.ok)).map (fun a => a.record)

/-- Failure oracle of a run in which every save succeeds. -/
def noFail : Role → Bool := fun _ => false

/-- Cross-reference lookup key for HUSB, WIFE and CHIL in the
parent-child loop: `node.data?.pointer || node.data?.value || node.value || ''`. -/
def xrefOf (n : GedcomNode) : String :=
  jsOr n.dataPointer (jsOr n.dataValue (jsOr n.value ""))

/-- Cross-reference lookup key the sibling loop uses:
`childNodes[i].data?.value || childNodes[i].value || ''` — the
`data?.pointer` field is not consulted there. -/
def sibXrefOf (n : GedcomNode) : String :=
  jsOr n.dataValue (jsOr n.value "")

/-- Resolution of a HUSB/WIFE node through the individual map:
`node ? individualMap.get(key) : null`. -/
def resolveParent (idMap : String → Option String) : Option GedcomNode → Option String
  | none => none
  | some n => idMap (xrefOf n)

/-- Marriage date extraction: `if (marrNode) { const dateNode = ...;
if (dateNode && dateNode.value) marriageDate = safeDate(dateNode.value); }`. -/
def marriageDateOf (parse : String → Option Int) (marrNode : Option GedcomNode) :
    Option Int :=
  match marrNode with
  | none => none
  | some m =>
    match findType (childrenOf m) "DATE" with
    | none => none
    | some d =>
      match d.value with
      | none => none
      | some v => if v = "" then none else safeDate parse (some v)

/-- Spouse block of the function, entered when both husband and wife
resolve: inside one try/catch, save a Marriage event when a MARR child
exists, then save the Spouse relationship.  A failing event save throws
into the catch, so the Spouse relationship save is not reached. -/
def spousePart (parse : String → Option Int) (fails : Role → Bool)
    (fam : GedcomNode) (h w : String) : List Attempt :=
  let marrNode := findType (childrenOf fam) "MARR"
  let marriageDate := marriageDateOf parse marrNode
  match marrNode with
  | some m =>
    let place := jsOr ((findType (childrenOf m) "PLAC").bind (fun n => n.value)) ""
    let evRec := DbRec.ev "Marriage" "Marriage" [h, w] marriageDate place
    if fails .marrEvent then [⟨.marrEvent, evRec, false⟩]
    else [⟨.marrEvent, evRec, true⟩,
      ⟨.spouseRel, DbRec.rel "Spouse" [h, w] marriageDate, !(fails .spouseRel)⟩]
  | none =>
    [⟨.spouseRel, DbRec.rel "Spouse" [h, w] marriageDate, !(fails .spouseRel)⟩]

/-- Mother half of the per-child loop body: save the mother link when
the wife resolved. -/
def motherOne (fails : Role → Bool) (wifeId : Option String)
    (i : Nat) (childId : String) : List Attempt :=
  match wifeId with
  | some w =>
    [⟨.motherRel i, DbRec.rel "Parent-Child" [w, childId] none,
      !(fails (.motherRel i))⟩]
  | none => []

/-- Body of the per-child loop for the i-th CHIL node: resolve the child
(an unresolved child is skipped with a warning), then inside one
try/catch save the father link (when the husband resolved) and the
mother link (when the wife resolved).  A failing father save throws into
the catch, so the mother save for the same child is not reached. -/
def childOne (fails : Role → Bool) (idMap : String → Option String)
    (husbandId wifeId : Option String) (i : Nat) (cn : GedcomNode) : List Attempt :=
  match idMap (xrefOf cn) with
  | none => []
  | some childId =>
    match husbandId with
    | some h =>
      if fails (.fatherRel i) then
        [⟨.fatherRel i, DbRec.rel "Parent-Child" [h, childId] none, false⟩]
      else
        ⟨.fatherRel i, DbRec.rel "Parent-Child" [h, childId] none, true⟩ ::
          motherOne fails wifeId i childId
    | none => motherOne fails wifeId i childId

/-- The per-child loop over the CHIL nodes, indexed from `i`. -/
def childPartAux (fails : Role → Bool) (idMap : String → Option String)
    (husbandId wifeId : Option String) : Nat → List GedcomNode → List Attempt
  | _, [] => []
  | i, cn :: rest =>
    childOne fails idMap husbandId wifeId i cn ++
      childPartAux fails idMap husbandId wifeId (i + 1) rest

/-- Body of the sibling double loop for the pair (i, j): resolve both
children through `sibXrefOf`; skip the pair when either fails to
resolve, otherwise save one Sibling relationship inside its own
try/catch. -/
def sibOne (fails : Role → Bool) (idMap : String → Option String)
    (i j : Nat) (a b : GedcomNode) : List Attempt :=
  match idMap (sibXrefOf a), idMap (sibXrefOf b) with
  | some c1, some c2 =>
    [⟨.sibRel i j, DbRec.rel "Sibling" [c1, c2] none, !(fails (.sibRel i j))⟩]
  | _, _ => []

/-- Inner sibling loop: the i-th CHIL node paired with every later one. -/
def sibInner (fails : Role → Bool) (idMap : String → Option String)
    (i : Nat) (a : GedcomNode) : Nat → List GedcomNode → List Attempt
  | _, [] => []
  | j, b :: rest =>
    sibOne fails idMap i j a b ++ sibInner fails idMap i a (j + 1) rest

/-- Outer sibling loop over all ordered index pairs i < j. -/
def sibPartAux (fails : Role → Bool) (idMap : String → Option String) :
    Nat → List GedcomNode → List Attempt
  | _, [] => []
  | i, a :: rest =>
    sibInner fails idMap i a (i + 1) rest ++ sibPartAux fails idMap (i + 1) rest

/-- Model of `createRelationshipsFromFamily`: resolve HUSB and WIFE,
run the spouse block when both resolve, then the per-child parent
links, then the pairwise sibling links. -/
def createRelationshipsFromFamily (parse : String → Option Int)
    (fails : Role → Bool) (fam : GedcomNode) (idMap : String → Option String) :
    List Attempt :=
  let famChildren := childrenOf fam
  let husbandId := resolveParent idMap (findType famChildren "HUSB")
  let wifeId := resolveParent idMap (findType famChildren "WIFE")
  let childNodes := filterType famChildren "CHIL"
  (match husbandId, wifeId with
    | some h, some w => spousePart parse fails fam h w
    | _, _ => []) ++
  childPartAux fails idMap husbandId wifeId 0 childNodes ++
  sibPartAux fails idMap 0 childNodes

/-- Parent ids that resolved for a family, husband first. -/
def parentIds (fam : GedcomNode) (idMap : String → Option String) : List String :=
  (resolveParent idMap (findType (childrenOf fam) "HUSB")).toList ++
    (resolveParent idMap (findType (childrenOf fam) "WIFE")).toList

/-- Internal ids of the family's CHIL nodes that resolve through the
individual map, via the parent-child loop's lookup key. -/
def resolvedChildren (fam : GedcomNode) (idMap : String → Option String) :
    List String :=
  (filterType (childrenOf fam) "CHIL").filterMap (fun cn => idMap (xrefOf cn))

/-! Shape lemmas: which record types each loop can produce, and how a
failure-free run saves everything it attempts. -/

theorem savedRecs_append (l m : List Attempt) :
    savedRecs (l ++ m) = savedRecs l ++ savedRecs m := by
  simp [savedRecs]

theorem mem_motherOne_record {fails : Role → Bool} {wid : Option String}
    {i : Nat} {childId : String} {a : Attempt}
    (ha : a ∈ motherOne fails wid i childId) :
    ∃ ps, a.record = DbRec.rel "Parent-Child" ps none := by
  unfold motherOne at ha
  cases wid with
  | some w => simp at ha; exact ⟨_, by rw [ha]⟩
  | none => simp at ha

theorem mem_childOne_record {fails : Role → Bool} {idMap : String → Option String}
    {hid wid : Option String} {i : Nat} {cn : GedcomNode} {a : Attempt}
    (ha : a ∈ childOne fails idMap hid wid i cn) :
    ∃ ps, a.record = DbRec.rel "Parent-Child" ps none := by
  unfold childOne at ha
  cases hres : idMap (xrefOf cn) with
  | none => rw [hres] at ha; simp at ha
  | some childId =>
    rw [hres] at ha
    cases hid with
    | some h =>
      dsimp only at ha
      by_cases hf : fails (.fatherRel i)
      · rw [if_pos hf] at ha
        simp at ha; exact ⟨_, by rw [ha]⟩
      · rw [if_neg hf] at ha
        rcases List.mem_cons.mp ha with h1 | h2
        · exact ⟨_, by rw [h1]⟩
        · exact mem_motherOne_record h2
    | none =>
      dsimp only at ha
      exact mem_motherOne_record ha

theorem mem_childPartAux_record {fails : Role → Bool}
    {idMap : String → Option String} {hid wid : Option String}
    {i : Nat} {l : List GedcomNode} {a : Attempt}
    (ha : a ∈ childPartAux fails idMap hid wid i l) :
    ∃ ps, a.record = DbRec.rel "Parent-Child" ps none := by
  induction l generalizing i with
  | nil => simp [childPartAux] at ha
  | cons cn rest ih =>
    rw [childPartAux] at ha
    rcases List.mem_append.mp ha with h1 | h2
    · exact mem_childOne_record h1
    · exact ih h2

theorem mem_sibOne_record {fails : Role → Bool} {idMap : String → Option String}
    {i j : Nat} {x y : GedcomNode} {a : Attempt}
    (ha : a ∈ sibOne fails idMap i j x y) :
    ∃ ps, a.record = DbRec.rel "Sibling" ps none := by
  unfold sibOne at ha
  cases h1 : idMap (sibXrefOf x) with
  | none => rw [h1] at ha; simp at ha
  | some c1 =>
    cases h2 : idMap (sibXrefOf y) with
    | none => rw [h1, h2] at ha; simp at ha
    | some c2 =>
      rw [h1, h2] at ha
      simp at ha; exact ⟨_, by rw [ha]⟩

theorem mem_sibInner_record {fails : Role → Bool} {idMap : String → Option String}
    {i : Nat} {x : GedcomNode} {j : Nat} {l : List GedcomNode} {a : Attempt}
    (ha : a ∈ sibInner fails idMap i x j l) :
    ∃ ps, a.record = DbRec.rel "Sibling" ps none := by
  induction l generalizing j with
  | nil => simp [sibInner] at ha
  | cons y rest ih =>
    rw [sibInner] at ha
    rcases List.mem_append.mp ha with h1 | h2
    · exact mem_sibOne_record h1
    · exact ih h2

theorem mem_sibPartAux_record {fails : Role → Bool}
    {idMap : String → Option String} {i : Nat} {l : List GedcomNode} {a : Attempt}
    (ha : a ∈ sibPartAux fails idMap i l) :
    ∃ ps, a.record = DbRec.rel "Sibling" ps none := by
  induction l generalizing i with
  | nil => simp [sibPartAux] at ha
  | cons x rest ih =>
    rw [sibPartAux] at ha
    rcases List.mem_append.mp ha with h1 | h2
    · exact mem_sibInner_record h1
    · exact ih h2

theorem mem_savedRecs {l : List Attempt} {r : DbRec} (hr : r ∈ savedRecs l) :
    ∃ a ∈ l, a.record = r := by
  simp only [savedRecs, List.mem_map, List.mem_filter] at hr
  rcases hr with ⟨a, ⟨hal, _⟩, heq⟩
  exact ⟨a, hal, heq⟩

theorem childPart_filter_spouse_nil (fails : Role → Bool)
    (idMap : String → Option String) (hid wid : Option String)
    (i : Nat) (l : List GedcomNode) :
    (savedRecs (childPartAux fails idMap hid wid i l)).filter
      (fun r => r.isRelOf "Spouse") = [] := by
  rw [List.filter_eq_nil_iff]
  intro r hr
  rcases mem_savedRecs hr with ⟨a, hal, heq⟩
  rcases mem_childPartAux_record hal with ⟨ps, hrec⟩
  rw [← heq, hrec]
  simp [DbRec.isRelOf, DbRec.isMarriageEvent]

theorem childPart_filter_marr_nil (fails : Role → Bool)
    (idMap : String → Option String) (hid wid : Option String)
    (i : Nat) (l : List GedcomNode) :
    (savedRecs (childPartAux fails idMap hid wid i l)).filter
      (fun r => r.isMarriageEvent) = [] := by
  rw [List.filter_eq_nil_iff]
  intro r hr
  rcases mem_savedRecs hr with ⟨a, hal, heq⟩
  rcases mem_childPartAux_record hal with ⟨ps, hrec⟩
  rw [← heq, hrec]
  simp [DbRec.isRelOf, DbRec.isMarriageEvent]

theorem sibPart_filter_spouse_nil (fails : Role → Bool)
    (idMap : String → Option String) (i : Nat) (l : List GedcomNode) :
    (savedRecs (sibPartAux fails idMap i l)).filter
      (fun r => r.isRelOf "Spouse") = [] := by
  rw [List.filter_eq_nil_iff]
  intro r hr
  rcases mem_savedRecs hr with ⟨a, hal, heq⟩
  rcases mem_sibPartAux_record hal with ⟨ps, hrec⟩
  rw [← heq, hrec]
  simp [DbRec.isRelOf, DbRec.isMarriageEvent]

theorem sibPart_filter_marr_nil (fails : Role → Bool)
    (idMap : String → Option String) (i : Nat) (l : List GedcomNode) :
    (savedRecs (sibPartAux fails idMap i l)).filter
      (fun r => r.isMarriageEvent) = [] := by
  rw [List.filter_eq_nil_iff]
  intro r hr
  rcases mem_savedRecs hr with ⟨a, hal, heq⟩
  rcases mem_sibPartAux_record hal with ⟨ps, hrec⟩
  rw [← heq, hrec]
  simp [DbRec.isRelOf, DbRec.isMarriageEvent]

/-- Claim C2: in a family whose HUSB and WIFE pointers both resolve to
H and W and which has a MARR child, a failure-free run of
`createRelationshipsFromFamily` saves exactly one Spouse relationship
and exactly one Marriage event, and every such record carries exactly
the person pair [H, W]. -/
theorem C2_marriage_spouse_and_event
    (parse : String → Option Int) (idMap : String → Option String)
    (fam : GedcomNode) (hn wn mn : GedcomNode) (h w : String)
    (hH : findType (childrenOf fam) "HUSB" = some hn)
    (hHr : idMap (xrefOf hn) = some h)
    (hW : findType (childrenOf fam) "WIFE" = some wn)
    (hWr : idMap (xrefOf wn) = some w)
    (hM : findType (childrenOf fam) "MARR" = some mn) :
    ((savedRecs (createRelationshipsFromFamily parse noFail fam idMap)).filter
        (fun r => r.isRelOf "Spouse")).length = 1 ∧
    ((savedRecs (createRelationshipsFromFamily parse noFail fam idMap)).filter
        (fun r => r.isMarriageEvent)).length = 1 ∧
    (∀ r ∈ savedRecs (createRelationshipsFromFamily parse noFail fam idMap),
      r.isRelOf "Spouse" = true → r.persons = [h, w]) ∧
    (∀ r ∈ savedRecs (createRelationshipsFromFamily parse noFail fam idMap),
      r.isMarriageEvent = true → r.persons = [h, w]) := by
  have hhus : resolveParent idMap (findType (childrenOf fam) "HUSB") = some h := by
    rw [hH]; exact hHr
  have hwif : resolveParent idMap (findType (childrenOf fam) "WIFE") = some w := by
    rw [hW]; exact hWr
  have hL : createRelationshipsFromFamily parse noFail fam idMap =
      spousePart parse noFail fam h w ++
        (childPartAux noFail idMap (some h) (some w) 0
            (filterType (childrenOf fam) "CHIL") ++
          sibPartAux noFail idMap 0 (filterType (childrenOf fam) "CHIL")) := by
    simp only [createRelationshipsFromFamily]
    rw [hhus, hwif]
    rw [List.append_assoc]
  have hsp : spousePart parse noFail fam h w =
      [⟨.marrEvent,
          DbRec.ev "Marriage" "Marriage" [h, w] (marriageDateOf parse (some mn))
            (jsOr ((findType (childrenOf mn) "PLAC").bind (fun n => n.value)) ""),
          true⟩,
        ⟨.spouseRel, DbRec.rel "Spouse" [h, w] (marriageDateOf parse (some mn)),
          true⟩] := by
    simp [spousePart, hM, noFail]
  have hspS : savedRecs (spousePart parse noFail fam h w) =
      [DbRec.ev "Marriage" "Marriage" [h, w] (marriageDateOf parse (some mn))
          (jsOr ((findType (childrenOf mn) "PLAC").bind (fun n => n.value)) ""),
        DbRec.rel "Spouse" [h, w] (marriageDateOf parse (some mn))] := by
    rw [hsp]; rfl
  refine ⟨?_, ?_, ?_, ?_⟩
  · rw [hL, savedRecs_append, savedRecs_append, hspS, List.filter_append,
      List.filter_append, childPart_filter_spouse_nil, sibPart_filter_spouse_nil]
    simp [DbRec.isRelOf]
  · rw [hL, savedRecs_append, savedRecs_append, hspS, List.filter_append,
      List.filter_append, childPart_filter_marr_nil, sibPart_filter_marr_nil]
    simp [DbRec.isMarriageEvent]
  · intro r hr hrel
    rw [hL, savedRecs_append, savedRecs_append, hspS] at hr
    rcases List.mem_append.mp hr with h1 | h23
    · rcases List.mem_cons.mp h1 with he | hrest
      · rw [he] at hrel; simp [DbRec.isRelOf] at hrel
      · rcases List.mem_cons.mp hrest with hs | hnil
        · rw [hs]; rfl
        · simp at hnil
    · rcases List.mem_append.mp h23 with h2 | h3
      · rcases mem_savedRecs h2 with ⟨a, hal, heq⟩
        rcases mem_childPartAux_record hal with ⟨ps, hrec⟩
        rw [← heq, hrec] at hrel
        simp [DbRec.isRelOf] at hrel
      · rcases mem_savedRecs h3 with ⟨a, hal, heq⟩
        rcases mem_sibPartAux_record hal with ⟨ps, hrec⟩
        rw [← heq, hrec] at hrel
        simp [DbRec.isRelOf] at hrel
  · intro r hr hev
    rw [hL, savedRecs_append, savedRecs_append, hspS] at hr
    rcases List.mem_append.mp hr with h1 | h23
    · rcases List.mem_cons.mp h1 with he | hrest
      · rw [he]; rfl
      · rcases List.mem_cons.mp hrest with hs | hnil
        · rw [hs] at hev; simp [DbRec.isMarriageEvent] at hev
        · simp at hnil
    · rcases List.mem_append.mp h23 with h2 | h3
      · rcases mem_savedRecs h2 with ⟨a, hal, heq⟩
        rcases mem_childPartAux_record hal with ⟨ps, hrec⟩
        rw [← heq, hrec] at hev
        simp [DbRec.isMarriageEvent] at hev
      · rcases mem_savedRecs h3 with ⟨a, hal, heq⟩
        rcases mem_sibPartAux_record hal with ⟨ps, hrec⟩
        rw [← heq, hrec] at hev
        simp [DbRec.isMarriageEvent] at hev

/-- Concrete HUSB node used by the C2 witness family. -/
def husbC2 : GedcomNode := .mk "HUSB" none (some "@I1@") none none none

/-- Concrete WIFE node used by the C2 witness family. -/
def wifeC2 : GedcomNode := .mk "WIFE" none (some "@I2@") none none none

/-- Concrete MARR node used by the C2 witness family. -/
def marrC2 : GedcomNode := .mk "MARR" none none none none none

/-- Concrete family with resolvable husband and wife and a MARR child. -/
def famC2 : GedcomNode :=
  .mk "FAM" none none none (some "@F1@") (some [husbC2, wifeC2, marrC2])

/-- Individual map for the C2 witness family. -/
def idMapC2 : String → Option String := fun s =>
  if s = "@I1@" then some "H" else if s = "@I2@" then some "W" else none

/-- Witness for C2 on a concrete family. -/
theorem C2_marriage_spouse_and_event_witness :
    ((savedRecs (createRelationshipsFromFamily (fun _ => none) noFail famC2 idMapC2)).filter
        (fun r => r.isRelOf "Spouse")).length = 1 ∧
    ((savedRecs (createRelationshipsFromFamily (fun _ => none) noFail famC2 idMapC2)).filter
        (fun r => r.isMarriageEvent)).length = 1 ∧
    (∀ r ∈ savedRecs (createRelationshipsFromFamily (fun _ => none) noFail famC2 idMapC2),
      r.isRelOf "Spouse" = true → r.persons = ["H", "W"]) ∧
    (∀ r ∈ savedRecs (createRelationshipsFromFamily (fun _ => none) noFail famC2 idMapC2),
      r.isMarriageEvent = true → r.persons = ["H", "W"]) :=
  C2_marriage_spouse_and_event (fun _ => none) idMapC2 famC2 husbC2 wifeC2 marrC2
    "H" "W" rfl rfl rfl rfl rfl

/-! ## Claim C6: one parent-child link per resolved parent per resolved child -/

theorem mem_spousePart_record {parse : String → Option Int} {fails : Role → Bool}
    {fam : GedcomNode} {h w : String} {a : Attempt}
    (ha : a ∈ spousePart parse fails fam h w) :
    (∃ d p, a.record = DbRec.ev "Marriage" "Marriage" [h, w] d p) ∨
      (∃ d, a.record = DbRec.rel "Spouse" [h, w] d) := by
  unfold spousePart at ha
  cases hm : findType (childrenOf fam) "MARR" with
  | none =>
    rw [hm] at ha
    dsimp only at ha
    simp at ha
    exact Or.inr ⟨_, by rw [ha]⟩
  | some m =>
    rw [hm] at ha
    dsimp only at ha
    by_cases hf : fails .marrEvent
    · rw [if_pos hf] at ha
      simp at ha
      exact Or.inl ⟨_, _, by rw [ha]⟩
    · rw [if_neg hf] at ha
      rcases List.mem_cons.mp ha with h1 | h2
      · exact Or.inl ⟨_, _, by rw [h1]⟩
      · rcases List.mem_cons.mp h2 with h3 | h4
        · exact Or.inr ⟨_, by rw [h3]⟩
        · simp at h4

theorem spousePart_filter_pc_nil (parse : String → Option Int) (fails : Role → Bool)
    (fam : GedcomNode) (h w : String) :
    (savedRecs (spousePart parse fails fam h w)).filter
      (fun r => r.isRelOf "Parent-Child") = [] := by
  rw [List.filter_eq_nil_iff]
  intro r hr
  rcases mem_savedRecs hr with ⟨a, hal, heq⟩
  rcases mem_spousePart_record hal with ⟨d, p, hrec⟩ | ⟨d, hrec⟩ <;>
    rw [← heq, hrec] <;> simp [DbRec.isRelOf]

theorem sibPart_filter_pc_nil (fails : Role → Bool)
    (idMap : String → Option String) (i : Nat) (l : List GedcomNode) :
    (savedRecs (sibPartAux fails idMap i l)).filter
      (fun r => r.isRelOf "Parent-Child") = [] := by
  rw [List.filter_eq_nil_iff]
  intro r hr
  rcases mem_savedRecs hr with ⟨a, hal, heq⟩
  rcases mem_sibPartAux_record hal with ⟨ps, hrec⟩
  rw [← heq, hrec]
  simp [DbRec.isRelOf]

theorem savedRecs_childOne_noFail (idMap : String → Option String)
    (hid wid : Option String) (i : Nat) (cn : GedcomNode) :
    savedRecs (childOne noFail idMap hid wid i cn) =
      match idMap (xrefOf cn) with
      | none => []
      | some c =>
        (hid.toList ++ wid.toList).map
          (fun p => DbRec.rel "Parent-Child" [p, c] none) := by
  unfold childOne
  cases hres : idMap (xrefOf cn) with
  | none => rfl
  | some c =>
    cases hid with
    | some h =>
      cases wid with
      | some w => simp [noFail, motherOne, savedRecs]
      | none => simp [noFail, motherOne, savedRecs]
    | none =>
      cases wid with
      | some w => simp [noFail, motherOne, savedRecs]
      | none => simp [noFail, motherOne, savedRecs]

theorem childPart_noFail_saved (idMap : String → Option String)
    (hid wid : Option String) (i : Nat) (l : List GedcomNode) :
    savedRecs (childPartAux noFail idMap hid wid i l) =
      (l.filterMap (fun cn => idMap (xrefOf cn))).flatMap
        (fun c => (hid.toList ++ wid.toList).map
          (fun p => DbRec.rel "Parent-Child" [p, c] none)) := by
  induction l generalizing i with
  | nil => simp [childPartAux, savedRecs]
  | cons cn rest ih =>
    rw [childPartAux, savedRecs_append, savedRecs_childOne_noFail, ih]
    cases hres : idMap (xrefOf cn) with
    | none => simp [List.filterMap_cons, hres]
    | some c => simp [List.filterMap_cons, hres]

theorem filter_pc_flatMap_self (cs ps : List String) :
    ((cs.flatMap (fun c => ps.map
        (fun p => DbRec.rel "Parent-Child" [p, c] none))).filter
      (fun r => r.isRelOf "Parent-Child")) =
      cs.flatMap (fun c => ps.map
        (fun p => DbRec.rel "Parent-Child" [p, c] none)) := by
  rw [List.filter_eq_self]
  intro r hr
  rcases List.mem_flatMap.mp hr with ⟨c, _, hin⟩
  rcases List.mem_map.mp hin with ⟨p, _, heq⟩
  rw [← heq]
  simp [DbRec.isRelOf]

/-- Claim C6: a failure-free run of `createRelationshipsFromFamily`
saves exactly one Parent-Child relationship per resolved parent per
resolved child — the Parent-Child records are precisely [parent, child]
for each child of the family that resolves through the individual map
and each of HUSB/WIFE that resolves (husband first).  In particular, for
a family with two resolvable children and only the wife resolvable, two
links wife→child are saved and none referencing the husband. -/
theorem C6_parent_child_links (parse : String → Option Int)
    (idMap : String → Option String) (fam : GedcomNode) :
    (savedRecs (createRelationshipsFromFamily parse noFail fam idMap)).filter
        (fun r => r.isRelOf "Parent-Child")
      = (resolvedChildren fam idMap).flatMap
          (fun c => (parentIds fam idMap).map
            (fun p => DbRec.rel "Parent-Child" [p, c] none)) := by
  unfold createRelationshipsFromFamily resolvedChildren parentIds
  dsimp only
  cases hh : resolveParent idMap (findType (childrenOf fam) "HUSB") with
  | some h =>
    cases hw : resolveParent idMap (findType (childrenOf fam) "WIFE") with
    | some w =>
      dsimp only
      rw [savedRecs_append, savedRecs_append, List.filter_append,
        List.filter_append, spousePart_filter_pc_nil, sibPart_filter_pc_nil,
        childPart_noFail_saved, filter_pc_flatMap_self]
      simp
    | none =>
      dsimp only
      rw [savedRecs_append, savedRecs_append, List.filter_append,
        List.filter_append, sibPart_filter_pc_nil,
        childPart_noFail_saved, filter_pc_flatMap_self]
      simp [savedRecs]
  | none =>
    cases hw : resolveParent idMap (findType (childrenOf fam) "WIFE") with
    | some w =>
      dsimp only
      rw [savedRecs_append, savedRecs_append, List.filter_append,
        List.filter_append, sibPart_filter_pc_nil,
        childPart_noFail_saved, filter_pc_flatMap_self]
      simp [savedRecs]
    | none =>
      dsimp only
      rw [savedRecs_append, savedRecs_append, List.filter_append,
        List.filter_append, sibPart_filter_pc_nil,
        childPart_noFail_saved, filter_pc_flatMap_self]
      simp [savedRecs]

/-! ## Claim C1: sibling synthesis with pointer-shaped child references

The parent-child loop resolves a CHIL node through
`data?.pointer || data?.value || value`, the sibling loop through
`data?.value || value` only.  A family whose CHIL nodes carry the
cross-reference in `data.pointer` therefore yields parent-child links
but no sibling relationship. -/

/-- CHIL node carrying its cross-reference only in `data.pointer`. -/
def chilPtr (p : String) : GedcomNode := .mk "CHIL" none (some p) none none none

/-- Family with a resolvable wife and two children referenced through
`data.pointer` only. -/
def famC1 : GedcomNode :=
  .mk "FAM" none none none (some "@F1@")
    (some [.mk "WIFE" none (some "@I2@") none none none,
      chilPtr "@I3@", chilPtr "@I4@"])

/-- Individual map for the C1 family: the wife and both children are
present. -/
def idMapC1 : String → Option String := fun s =>
  if s = "@I2@" then some "W" else
  if s = "@I3@" then some "C1" else
  if s = "@I4@" then some "C2" else none

/-- Claim C1 evaluated at the failing input: both children of `famC1`
resolve through the individual map (the run saves the two Parent-Child
links that prove it), yet zero Sibling relationships are saved where the
claim requires 2·(2−1)/2 = 1 — the sibling loop's lookup key ignores
`data.pointer`. -/
theorem C1_sibling_pointer_refs_eval :
    resolvedChildren famC1 idMapC1 = ["C1", "C2"] ∧
    ((savedRecs (createRelationshipsFromFamily (fun _ => none) noFail famC1 idMapC1)).filter
        (fun r => r.isRelOf "Parent-Child")).length = 2 ∧
    ((savedRecs (createRelationshipsFromFamily (fun _ => none) noFail famC1 idMapC1)).filter
        (fun r => r.isRelOf "Sibling")).length = 0 := by
  refine ⟨by decide, by decide, by decide⟩

/-! ## Claim C7: isolation of relationship-save failures -/

/-- Family with resolvable husband, wife and one child, no MARR. -/
def famC7 : GedcomNode :=
  .mk "FAM" none none none none
    (some [.mk "HUSB" none (some "@I1@") none none none,
      .mk "WIFE" none (some "@I2@") none none none,
      .mk "CHIL" none (some "@I3@") (some "@I3@") none none])

/-- Individual map for the C7 family. -/
def idMapC7 : String → Option String := fun s =>
  if s = "@I1@" then some "H" else
  if s = "@I2@" then some "W" else
  if s = "@I3@" then some "C" else none

/-- Failure oracle failing exactly the father-child save of child 0. -/
def failsFather0 : Role → Bool := fun r =>
  match r with
  | .fatherRel 0 => true
  | _ => false

/-- Claim C7 fails as stated: in `famC7`, a failure-free run attempts
the mother-child save, but when the single father-child save fails (and
is attempted), the mother-child save of the same family is no longer
attempted — one relationship-save failure does prevent another
relationship of the family from being attempted. -/
theorem C7_counterexample :
    (Role.motherRel 0 ∈
      (createRelationshipsFromFamily (fun _ => none) noFail famC7 idMapC7).map
        (fun a => a.role)) ∧
    (Role.fatherRel 0 ∈
      (createRelationshipsFromFamily (fun _ => none) failsFather0 famC7 idMapC7).map
        (fun a => a.role)) ∧
    ¬ (Role.motherRel 0 ∈
      (createRelationshipsFromFamily (fun _ => none) failsFather0 famC7 idMapC7).map
        (fun a => a.role)) := by
  refine ⟨by decide, by decide, by decide⟩

theorem spousePart_map_roleRecord (parse : String → Option Int)
    (fails : Role → Bool) (fam : GedcomNode) (h w : String)
    (hm : fails Role.marrEvent = false) :
    (spousePart parse fails fam h w).map (fun a => (a.role, a.record)) =
      (spousePart parse noFail fam h w).map (fun a => (a.role, a.record)) := by
  unfold spousePart
  cases findType (childrenOf fam) "MARR" with
  | none => simp
  | some m => simp [hm, noFail]

theorem motherOne_map_roleRecord (fails : Role → Bool) (wid : Option String)
    (i : Nat) (c : String) :
    (motherOne fails wid i c).map (fun a => (a.role, a.record)) =
      (motherOne noFail wid i c).map (fun a => (a.role, a.record)) := by
  cases wid with
  | none => rfl
  | some w => simp [motherOne]

/-- The save sites a failure pattern `fails` makes family processing
skip: exactly the mother-child save of a child whose father-child save
fails (which requires a resolved husband, `hid`).  Every other site is
kept. -/
def keepAfterFailures (hid : Option String) (fails : Role → Bool)
    (a : Attempt) : Bool :=
  match a.role with
  | Role.motherRel i => !(hid.isSome && fails (Role.fatherRel i))
  | _ => true

theorem mem_spousePart_role {parse : String → Option Int} {fails : Role → Bool}
    {fam : GedcomNode} {h w : String} {a : Attempt}
    (ha : a ∈ spousePart parse fails fam h w) :
    a.role = Role.marrEvent ∨ a.role = Role.spouseRel := by
  unfold spousePart at ha
  cases hm : findType (childrenOf fam) "MARR" with
  | none =>
    rw [hm] at ha
    dsimp only at ha
    simp at ha
    exact Or.inr (by rw [ha])
  | some m =>
    rw [hm] at ha
    dsimp only at ha
    by_cases hf : fails .marrEvent
    · rw [if_pos hf] at ha
      simp at ha
      exact Or.inl (by rw [ha])
    · rw [if_neg hf] at ha
      rcases List.mem_cons.mp ha with h1 | h2
      · exact Or.inl (by rw [h1])
      · rcases List.mem_cons.mp h2 with h3 | h4
        · exact Or.inr (by rw [h3])
        · simp at h4

theorem mem_sibOne_role {fails : Role → Bool} {idMap : String → Option String}
    {i j : Nat} {x y : GedcomNode} {a : Attempt}
    (ha : a ∈ sibOne fails idMap i j x y) : a.role = Role.sibRel i j := by
  unfold sibOne at ha
  cases h1 : idMap (sibXrefOf x) with
  | none => rw [h1] at ha; simp at ha
  | some c1 =>
    cases h2 : idMap (sibXrefOf y) with
    | none => rw [h1, h2] at ha; simp at ha
    | some c2 =>
      rw [h1, h2] at ha
      simp at ha
      rw [ha]

theorem mem_sibInner_role {fails : Role → Bool} {idMap : String → Option String}
    {i : Nat} {x : GedcomNode} {j : Nat} {l : List GedcomNode} {a : Attempt}
    (ha : a ∈ sibInner fails idMap i x j l) :
    ∃ j2, a.role = Role.sibRel i j2 := by
  induction l generalizing j with
  | nil => simp [sibInner] at ha
  | cons y rest ih =>
    rw [sibInner] at ha
    rcases List.mem_append.mp ha with h1 | h2
    · exact ⟨j, mem_sibOne_role h1⟩
    · exact ih h2

theorem mem_sibPartAux_role {fails : Role → Bool} {idMap : String → Option String}
    {i : Nat} {l : List GedcomNode} {a : Attempt}
    (ha : a ∈ sibPartAux fails idMap i l) :
    ∃ i2 j2, a.role = Role.sibRel i2 j2 := by
  induction l generalizing i with
  | nil => simp [sibPartAux] at ha
  | cons x rest ih =>
    rw [sibPartAux] at ha
    rcases List.mem_append.mp ha with h1 | h2
    · rcases mem_sibInner_role h1 with ⟨j2, hr⟩
      exact ⟨i, j2, hr⟩
    · exact ih h2

theorem spousePart_filter_keep (parse : String → Option Int)
    (g : Role → Bool) (fam : GedcomNode) (h w : String)
    (hid : Option String) (fails : Role → Bool) :
    (spousePart parse g fam h w).filter (keepAfterFailures hid fails) =
      spousePart parse g fam h w := by
  rw [List.filter_eq_self]
  intro a ha
  rcases mem_spousePart_role ha with h1 | h1 <;> simp [keepAfterFailures, h1]

theorem sibPartAux_filter_keep (g : Role → Bool)
    (idMap : String → Option String) (i : Nat) (l : List GedcomNode)
    (hid : Option String) (fails : Role → Bool) :
    (sibPartAux g idMap i l).filter (keepAfterFailures hid fails) =
      sibPartAux g idMap i l := by
  rw [List.filter_eq_self]
  intro a ha
  rcases mem_sibPartAux_role ha with ⟨i2, j2, hr⟩
  simp [keepAfterFailures, hr]

theorem childOne_filter_keep (fails : Role → Bool)
    (idMap : String → Option String) (hid wid : Option String)
    (i : Nat) (cn : GedcomNode) :
    (childOne fails idMap hid wid i cn).map (fun a => (a.role, a.record)) =
      ((childOne noFail idMap hid wid i cn).filter
          (keepAfterFailures hid fails)).map (fun a => (a.role, a.record)) := by
  unfold childOne
  cases hres : idMap (xrefOf cn) with
  | none => rfl
  | some c =>
    dsimp only
    cases hid with
    | none =>
      dsimp only
      cases wid with
      | none => rfl
      | some w => simp [motherOne, keepAfterFailures]
    | some h =>
      dsimp only
      rw [if_neg (show ¬ noFail (Role.fatherRel i) = true by simp [noFail])]
      rw [List.filter_cons]
      rw [if_pos (show keepAfterFailures (some h) fails
        ⟨Role.fatherRel i, DbRec.rel "Parent-Child" [h, c] none, true⟩ = true from rfl)]
      by_cases hf : fails (Role.fatherRel i)
      · rw [if_pos hf]
        cases wid with
        | none => rfl
        | some w => simp [motherOne, keepAfterFailures, hf]
      · rw [if_neg hf]
        cases wid with
        | none => rfl
        | some w =>
          simp only [Bool.not_eq_true] at hf
          simp [motherOne, keepAfterFailures, hf]

theorem childPartAux_filter_keep (fails : Role → Bool)
    (idMap : String → Option String) (hid wid : Option String)
    (i : Nat) (l : List GedcomNode) :
    (childPartAux fails idMap hid wid i l).map (fun a => (a.role, a.record)) =
      ((childPartAux noFail idMap hid wid i l).filter
          (keepAfterFailures hid fails)).map (fun a => (a.role, a.record)) := by
  induction l generalizing i with
  | nil => rfl
  | cons cn rest ih =>
    rw [childPartAux, childPartAux, List.map_append, List.filter_append,
      List.map_append, childOne_filter_keep, ih]

theorem sibOne_map_roleRecord (fails : Role → Bool)
    (idMap : String → Option String) (i j : Nat) (x y : GedcomNode) :
    (sibOne fails idMap i j x y).map (fun a => (a.role, a.record)) =
      (sibOne noFail idMap i j x y).map (fun a => (a.role, a.record)) := by
  unfold sibOne
  cases idMap (sibXrefOf x) with
  | none => rfl
  | some c1 =>
    cases idMap (sibXrefOf y) with
    | none => rfl
    | some c2 => simp

theorem sibInner_map_roleRecord (fails : Role → Bool)
    (idMap : String → Option String) (i : Nat) (x : GedcomNode)
    (j : Nat) (l : List GedcomNode) :
    (sibInner fails idMap i x j l).map (fun a => (a.role, a.record)) =
      (sibInner noFail idMap i x j l).map (fun a => (a.role, a.record)) := by
  induction l generalizing j with
  | nil => rfl
  | cons y rest ih =>
    rw [sibInner, sibInner, List.map_append, List.map_append,
      sibOne_map_roleRecord, ih]

theorem sibPartAux_map_roleRecord (fails : Role → Bool)
    (idMap : String → Option String) (i : Nat) (l : List GedcomNode) :
    (sibPartAux fails idMap i l).map (fun a => (a.role, a.record)) =
      (sibPartAux noFail idMap i l).map (fun a => (a.role, a.record)) := by
  induction l generalizing i with
  | nil => rfl
  | cons x rest ih =>
    rw [sibPartAux, sibPartAux, List.map_append, List.map_append,
      sibInner_map_roleRecord, ih]

/-- Claim C7, amended: every relationship-save failure is caught inside
family processing, and for an arbitrary pattern of failing relationship
saves — spouse, father-child, mother-child and sibling saves failing in
any combination (the marriage-event save is an event save, outside the
claim's relationship scope, and is taken to succeed) — the attempted
save sites and records are exactly those of a failure-free run minus,
for each child whose father-child save fails, that same child's
mother-child save.  In particular a spouse, mother-child or sibling
save failure prevents no other save, and after a father-child save
failure every other relationship of the family — the spouse link, the
remaining children's parent links and all sibling pairs — is still
attempted. -/
theorem C7_amended_failure_isolation (parse : String → Option Int)
    (fails : Role → Bool) (fam : GedcomNode) (idMap : String → Option String)
    (hm : fails Role.marrEvent = false) :
    (createRelationshipsFromFamily parse fails fam idMap).map
        (fun a => (a.role, a.record)) =
      ((createRelationshipsFromFamily parse noFail fam idMap).filter
          (keepAfterFailures
            (resolveParent idMap (findType (childrenOf fam) "HUSB")) fails)).map
        (fun a => (a.role, a.record)) := by
  unfold createRelationshipsFromFamily
  dsimp only
  cases hh : resolveParent idMap (findType (childrenOf fam) "HUSB") with
  | some h =>
    cases hw : resolveParent idMap (findType (childrenOf fam) "WIFE") with
    | some w =>
      dsimp only
      rw [List.map_append, List.map_append, List.filter_append, List.filter_append,
        List.map_append, List.map_append, spousePart_filter_keep,
        spousePart_map_roleRecord parse fails fam h w hm,
        childPartAux_filter_keep, sibPartAux_filter_keep, sibPartAux_map_roleRecord]
    | none =>
      dsimp only
      rw [List.map_append, List.map_append, List.filter_append, List.filter_append,
        List.map_append, List.map_append,
        childPartAux_filter_keep, sibPartAux_filter_keep, sibPartAux_map_roleRecord]
      rfl
  | none =>
    cases hw : resolveParent idMap (findType (childrenOf fam) "WIFE") with
    | some w =>
      dsimp only
      rw [List.map_append, List.map_append, List.filter_append, List.filter_append,
        List.map_append, List.map_append,
        childPartAux_filter_keep, sibPartAux_filter_keep, sibPartAux_map_roleRecord]
      rfl
    | none =>
      dsimp only
      rw [List.map_append, List.map_append, List.filter_append, List.filter_append,
        List.map_append, List.map_append,
        childPartAux_filter_keep, sibPartAux_filter_keep, sibPartAux_map_roleRecord]
      rfl

/-- Family used by the C7 witness: resolvable husband, wife, MARR, and
two children resolvable in both the parent-child and the sibling loop. -/
def famC7w : GedcomNode :=
  .mk "FAM" none none none none
    (some [.mk "HUSB" none (some "@I1@") none none none,
      .mk "WIFE" none (some "@I2@") none none none,
      .mk "MARR" none none none none none,
      .mk "CHIL" none (some "@I3@") (some "@I3@") none none,
      .mk "CHIL" none (some "@I4@") (some "@I4@") none none])

/-- Individual map for the C7 witness family. -/
def idMapC7w : String → Option String := fun s =>
  if s = "@I1@" then some "H" else
  if s = "@I2@" then some "W" else
  if s = "@I3@" then some "C1" else
  if s = "@I4@" then some "C2" else none

/-- Witness oracle: the first child's father save, the second child's
mother save, the spouse save and every sibling save fail; the marriage
event save succeeds. -/
def failsC7w : Role → Bool := fun r =>
  match r with
  | .fatherRel 0 => true
  | .motherRel 1 => true
  | .spouseRel => true
  | .sibRel _ _ => true
  | _ => false

/-- Witness for C7's amended theorem at the concrete two-child family
under the mixed failure oracle. -/
theorem C7_amended_failure_isolation_witness :
    (createRelationshipsFromFamily (fun _ => none) failsC7w famC7w idMapC7w).map
        (fun a => (a.role, a.record)) =
      ((createRelationshipsFromFamily (fun _ => none) noFail famC7w idMapC7w).filter
          (keepAfterFailures
            (resolveParent idMapC7w (findType (childrenOf famC7w) "HUSB")) failsC7w)).map
        (fun a => (a.role, a.record)) :=
  C7_amended_failure_isolation (fun _ => none) failsC7w famC7w idMapC7w rfl

/-! ## Import loop over individuals (`importToDatabase`, INDI phase)

The orchestrator filters the records to `type === 'INDI'` and loops:
it reads `individual.data?.xref_id`, skips the record when that is
falsy, and otherwise runs `createPersonFromGedcom` plus
`createEventsFromGedcom` inside a try/catch.  Person creation is
abstracted as an oracle `extract` returning either the thrown error
message or the new person id together with the count of events created,
standing for a `createPersonFromGedcom` that throws or succeeds. -/

/-- Mutable state of the individuals loop: the xref → internal-id map
(`individualMap`), the counters and the error and warning lists of the
statistics object. -/
structure ImportState : Type where
  indMap : List (String × String)
  individuals : Nat
  events : Nat
  errors : List String
  warnings : List String
  deriving DecidableEq, Repr

/-- JavaScript `Map.set`: replace the binding when the key is present,
append it otherwise. -/
def setAssoc : List (String × String) → String → String → List (String × String)
  | [], k, v => [(k, v)]
  | (k0, v0) :: rest, k, v =>
    if k0 = k then (k, v) :: rest else (k0, v0) :: setAssoc rest k v

/-- One iteration of the individuals loop: skip on a falsy
`data?.xref_id`; on a throwing extraction push one error string; on
success record the id mapping and bump the counters. -/
def importIndividualsStep (extract : GedcomNode → Except String (String × Nat))
    (s : ImportState) (ind : GedcomNode) : ImportState :=
  if jsOr ind.dataXrefId "" = "" then s
  else
    match extract ind with
    | .error e =>
      { s with errors := s.errors ++ ["Error importing individual: " ++ e] }
    | .ok (pid, evs) =>
      { s with
        indMap := setAssoc s.indMap (jsOr ind.dataXrefId "") pid,
        individuals := s.individuals + 1,
        events := s.events + evs }

/-- The individuals loop over a batch. -/
def importIndividuals (extract : GedcomNode → Except String (String × Nat)) :
    List GedcomNode → ImportState → ImportState
  | [], s => s
  | ind :: rest, s =>
    importIndividuals extract rest (importIndividualsStep extract s ind)

theorem importIndividuals_individuals_count
    (extract : GedcomNode → Except String (String × Nat))
    (l : List GedcomNode) (s : ImportState) :
    (importIndividuals extract l s).individuals =
      s.individuals + l.countP
        (fun ind => (jsOr ind.dataXrefId "" != "") && (extract ind).isOk) := by
  induction l generalizing s with
  | nil => simp [importIndividuals]
  | cons ind rest ih =>
    rw [importIndividuals, ih, List.countP_cons]
    unfold importIndividualsStep
    by_cases hx : jsOr ind.dataXrefId "" = ""
    · rw [if_pos hx]
      simp [hx]
    · rw [if_neg hx]
      cases he : extract ind with
      | error e => simp [he, hx, Except.isOk, Except.toBool]
      | ok pe =>
        cases pe with
        | mk pid evs =>
          simp [he, hx, Except.isOk, Except.toBool]
          omega

theorem importIndividuals_errors_count
    (extract : GedcomNode → Except String (String × Nat))
    (l : List GedcomNode) (s : ImportState) :
    (importIndividuals extract l s).errors.length =
      s.errors.length + l.countP
        (fun ind => (jsOr ind.dataXrefId "" != "") && !(extract ind).isOk) := by
  induction l generalizing s with
  | nil => simp [importIndividuals]
  | cons ind rest ih =>
    rw [importIndividuals, ih, List.countP_cons]
    unfold importIndividualsStep
    by_cases hx : jsOr ind.dataXrefId "" = ""
    · rw [if_pos hx]
      simp [hx]
    · rw [if_neg hx]
      cases he : extract ind with
      | error e =>
        simp [he, hx, Except.isOk, Except.toBool]
        omega
      | ok pe =>
        cases pe with
        | mk pid evs => simp [he, hx, Except.isOk, Except.toBool]

/-- Claim C3: in a batch where exactly one individual's extraction
throws (all records carry an xref id, everything before and after the
failing one extracts fine), the import creates one person per
non-throwing individual — `pre.length + post.length` of them — pushes
exactly one error string, and keeps processing the individuals after
the failure; it does not abort the batch. -/
theorem C3_single_failure_isolated
    (extract : GedcomNode → Except String (String × Nat))
    (pre post : List GedcomNode) (bad : GedcomNode)
    (hx : ∀ ind ∈ pre ++ bad :: post, jsOr ind.dataXrefId "" ≠ "")
    (hpre : ∀ ind ∈ pre, (extract ind).isOk = true)
    (hpost : ∀ ind ∈ post, (extract ind).isOk = true)
    (hbad : (extract bad).isOk = false) :
    (importIndividuals extract (pre ++ bad :: post)
        ⟨[], 0, 0, [], []⟩).individuals = pre.length + post.length ∧
    (importIndividuals extract (pre ++ bad :: post)
        ⟨[], 0, 0, [], []⟩).errors.length = 1 := by
  constructor
  · rw [importIndividuals_individuals_count]
    rw [List.countP_append, List.countP_cons]
    have hcpre : pre.countP
        (fun ind => (jsOr ind.dataXrefId "" != "") && (extract ind).isOk) =
        pre.length := by
      apply List.countP_eq_length.mpr
      intro ind hind
      have h1 := hx ind (List.mem_append.mpr (Or.inl hind))
      have h2 := hpre ind hind
      simp [h1, h2]
    have hcpost : post.countP
        (fun ind => (jsOr ind.dataXrefId "" != "") && (extract ind).isOk) =
        post.length := by
      apply List.countP_eq_length.mpr
      intro ind hind
      have h1 := hx ind (List.mem_append.mpr (Or.inr (List.mem_cons_of_mem _ hind)))
      have h2 := hpost ind hind
      simp [h1, h2]
    rw [hcpre, hcpost]
    simp [hbad]
  · rw [importIndividuals_errors_count]
    rw [List.countP_append, List.countP_cons]
    have hcpre : pre.countP
        (fun ind => (jsOr ind.dataXrefId "" != "") && !(extract ind).isOk) = 0 := by
      apply List.countP_eq_zero.mpr
      intro ind hind
      have h2 := hpre ind hind
      simp [h2]
    have hcpost : post.countP
        (fun ind => (jsOr ind.dataXrefId "" != "") && !(extract ind).isOk) = 0 := by
      apply List.countP_eq_zero.mpr
      intro ind hind
      have h2 := hpost ind hind
      simp [h2]
    have hxbad := hx bad (List.mem_append.mpr (Or.inr (List.mem_cons_self _ _)))
    rw [hcpre, hcpost]
    simp [hbad, hxbad]

/-- Concrete individual records for the C3 witness batch. -/
def indOf (x : String) : GedcomNode := .mk "INDI" none none none (some x) none

/-- Extraction oracle for the C3 witness: the individual with xref
`@I2@` throws, all others succeed. -/
def extractC3 : GedcomNode → Except String (String × Nat) := fun ind =>
  if jsOr ind.dataXrefId "" = "@I2@" then Except.error "boom"
  else Except.ok (jsOr ind.dataXrefId "", 0)

/-- Witness for C3: in the batch I1, I2, I3 with I2 throwing, two
persons are created and exactly one error is recorded. -/
theorem C3_single_failure_isolated_witness :
    (importIndividuals extractC3 ([indOf "@I1@"] ++ indOf "@I2@" :: [indOf "@I3@"])
        ⟨[], 0, 0, [], []⟩).individuals = [indOf "@I1@"].length + [indOf "@I3@"].length ∧
    (importIndividuals extractC3 ([indOf "@I1@"] ++ indOf "@I2@" :: [indOf "@I3@"])
        ⟨[], 0, 0, [], []⟩).errors.length = 1 :=
  C3_single_failure_isolated extractC3 [indOf "@I1@"] [indOf "@I3@"] (indOf "@I2@")
    (by decide) (by decide) (by decide) (by decide)

/-- Claim C10: an INDI record whose data carries no truthy `xref_id` is
skipped silently — the loop iteration leaves the whole import state
(id map, counters, errors, warnings) unchanged, so the record is
invisible in the returned statistics. -/
theorem C10_missing_xref_invisible
    (extract : GedcomNode → Except String (String × Nat))
    (s : ImportState) (ind : GedcomNode)
    (h : jsOr ind.dataXrefId "" = "") :
    importIndividualsStep extract s ind = s := by
  unfold importIndividualsStep
  rw [if_pos h]

/-- Witness for C10 at a concrete xref-less individual. -/
theorem C10_missing_xref_invisible_witness :
    importIndividualsStep extractC3 ⟨[("@I1@", "P1")], 1, 2, ["e"], ["w"]⟩
        (GedcomNode.mk "INDI" (some "x") none none none none) =
      ⟨[("@I1@", "P1")], 1, 2, ["e"], ["w"]⟩ :=
  C10_missing_xref_invisible extractC3 ⟨[("@I1@", "P1")], 1, 2, ["e"], ["w"]⟩
    (GedcomNode.mk "INDI" (some "x") none none none none) rfl

/-! ## Reference verifier (`verifyFamilyReferences`)

The function queries the persons whose `customFields` carry a non-empty
`childInFamilies` or `spouseInFamilies` list, and for every listed
family id missing from the family map pushes one warning string onto
`stats.warnings`.  It performs no write to any Person. -/

/-- The slice of a Person record the verifier reads. -/
structure PersonRec : Type where
  pid : String
  sourceId : String
  childInFamilies : List String
  spouseInFamilies : List String
  deriving DecidableEq, Repr

/-- The warning string the verifier pushes, identifying the person, its
source id, the dangling family id and the role. -/
def famWarning (p : PersonRec) (familyId : String) (role : String) : String :=
  "Person " ++ p.pid ++ " (" ++ p.sourceId ++ ") references non-existent family " ++
    familyId ++ " as " ++ role

/-- Inner loop: push one warning per listed family id absent from the
family map. -/
def pushDangling (familyMap : List String) (p : PersonRec) (role : String)
    (fams : List String) (ws : List String) : List String :=
  fams.foldl
    (fun acc f => if familyMap.contains f then acc else acc ++ [famWarning p f role])
    ws

/-- Whether the database query selects the person: it carries a
non-empty child-in-family or spouse-in-family list. -/
def hasFamilyRefs (p : PersonRec) : Bool :=
  !p.childInFamilies.isEmpty || !p.spouseInFamilies.isEmpty

/-- Model of `verifyFamilyReferences`: loop over the selected persons,
checking the child references then the spouse references; the persons
are returned unchanged because the source never writes them. -/
def verifyFamilyReferences (people : List PersonRec) (familyMap : List String)
    (warnings : List String) : List PersonRec × List String :=
  (people,
    (people.filter hasFamilyRefs).foldl
      (fun ws p =>
        pushDangling familyMap p "spouse" p.spouseInFamilies
          (pushDangling familyMap p "child" p.childInFamilies ws))
      warnings)

/-- The warnings one person contributes, in push order. -/
def danglingWarnings (familyMap : List String) (p : PersonRec) : List String :=
  (p.childInFamilies.filter (fun f => !(familyMap.contains f))).map
      (fun f => famWarning p f "child") ++
    (p.spouseInFamilies.filter (fun f => !(familyMap.contains f))).map
      (fun f => famWarning p f "spouse")

theorem pushDangling_eq (familyMap : List String) (p : PersonRec) (role : String)
    (fams : List String) (ws : List String) :
    pushDangling familyMap p role fams ws =
      ws ++ (fams.filter (fun f => !(familyMap.contains f))).map
        (fun f => famWarning p f role) := by
  induction fams generalizing ws with
  | nil => simp [pushDangling]
  | cons f rest ih =>
    rw [pushDangling, List.foldl_cons]
    by_cases hf : familyMap.contains f
    · rw [if_pos hf]
      rw [show List.foldl _ ws rest = pushDangling familyMap p role rest ws from rfl, ih]
      simp only [List.filter_cons]
      rw [if_neg (by simp [hf]; exact (by simpa using hf))]
    · rw [if_neg hf]
      rw [show List.foldl _ (ws ++ [famWarning p f role]) rest =
          pushDangling familyMap p role rest (ws ++ [famWarning p f role]) from rfl, ih]
      simp only [List.filter_cons]
      rw [if_pos (by simpa using hf)]
      simp

/-- Claim C9: the verifier leaves every Person unchanged and appends to
the statistics exactly one warning per dangling family reference — the
warnings after the run are the old ones followed by, for each person,
one `famWarning` (naming the person and the family id) per
child-in-family then per spouse-in-family reference absent from the
family map.  The function is total: it never raises. -/
theorem C9_verify_family_references (people : List PersonRec)
    (familyMap : List String) (warnings : List String) :
    (verifyFamilyReferences people familyMap warnings).1 = people ∧
    (verifyFamilyReferences people familyMap warnings).2 =
      warnings ++ people.flatMap (danglingWarnings familyMap) := by
  constructor
  · rfl
  · show (people.filter hasFamilyRefs).foldl _ warnings = _
    induction people generalizing warnings with
    | nil => simp [danglingWarnings]
    | cons p rest ih =>
      rw [List.filter_cons]
      by_cases hp : hasFamilyRefs p
      · rw [if_pos hp, List.foldl_cons, pushDangling_eq, pushDangling_eq, ih]
        simp [danglingWarnings]
      · rw [if_neg hp]
        have hc : p.childInFamilies = [] := by
          unfold hasFamilyRefs at hp
          simp only [Bool.or_eq_true, Bool.not_eq_true'] at hp
          push_neg at hp
          rcases hp with ⟨h1, _⟩
          simpa [List.isEmpty_iff] using h1
        have hs : p.spouseInFamilies = [] := by
          unfold hasFamilyRefs at hp
          simp only [Bool.or_eq_true, Bool.not_eq_true'] at hp
          push_neg at hp
          rcases hp with ⟨_, h2⟩
          simpa [List.isEmpty_iff] using h2
        rw [ih]
        simp [danglingWarnings, hc, hs]

/-! ## Media linker (`linkMediaObjects`, `determineMediaType`,
`getMimeTypeFromPath`)

`path.basename` and `path.extname` are modelled over the character
list: the basename is the part after the last slash, the extension the
part from the last dot of the basename unless that dot is its first
character. -/

/-- Model of `path.basename` for forward-slash paths. -/
def basenameStr (p : String) : String :=
  ⟨(p.data.reverse.takeWhile (fun c => c != '/')).reverse⟩

/-- Model of `path.extname`: from the last dot of the basename to its
end; empty when the basename has no dot or only a leading dot. -/
def extnameStr (p : String) : String :=
  let b := (basenameStr p).data
  let suf := b.reverse.takeWhile (fun c => c != '.')
  if suf.length < b.length then
    if b.length - suf.length - 1 = 0 then ""
    else ⟨'.' :: suf.reverse⟩
  else ""

/-- Model of JavaScript `toLowerCase` over the characters (ASCII). -/
def toLowerStr (s : String) : String := ⟨s.data.map Char.toLower⟩

/-- Model of `getMimeTypeFromPath`: the extension-to-MIME table with
fallback `application/octet-stream`. -/
def getMimeTypeFromPath (filePath : String) : String :=
  let ext := toLowerStr (extnameStr filePath)
  (([(".jpg", "image/jpeg"), (".jpeg", "image/jpeg"), (".png", "image/png"),
    (".gif", "image/gif"), (".bmp", "image/bmp"), (".tiff", "image/tiff"),
    (".webp", "image/webp"), (".mp3", "audio/mpeg"), (".wav", "audio/wav"),
    (".ogg", "audio/ogg"), (".m4a", "audio/mp4"), (".flac", "audio/flac"),
    (".mp4", "video/mp4"), (".avi", "video/x-msvideo"), (".mov", "video/quicktime"),
    (".wmv", "video/x-ms-wmv"), (".flv", "video/x-flv"), (".webm", "video/webm"),
    (".pdf", "application/pdf"), (".doc", "application/msword"),
    (".docx", "application/vnd.openxmlformats-officedocument.wordprocessingml.document"),
    (".txt", "text/plain"), (".rtf", "application/rtf")] :
      List (String × String)).lookup ext).getD "application/octet-stream"

/-- Model of `determineMediaType`: extension lists first, then MIME
prefixes, defaulting to Document. -/
def determineMediaType (filePath : String) (mimeType : String) : String :=
  let ext := toLowerStr (extnameStr filePath)
  if [".jpg", ".jpeg", ".png", ".gif", ".bmp", ".tiff", ".webp"].contains ext then
    "Photo"
  else if [".mp3", ".wav", ".ogg", ".m4a", ".flac"].contains ext then "Audio"
  else if [".mp4", ".avi", ".mov", ".wmv", ".flv", ".webm"].contains ext then "Video"
  else if [".pdf", ".doc", ".docx", ".txt", ".rtf"].contains ext then "Document"
  else if mimeType ≠ "" then
    if mimeType.startsWith "image/" then "Photo"
    else if mimeType.startsWith "audio/" then "Audio"
    else if mimeType.startsWith "video/" then "Video"
    else if mimeType.startsWith "application/" || mimeType.startsWith "text/" then
      "Document"
    else "Document"
  else "Document"

/-- A Media document as `linkMediaObjects` creates it inline. -/
structure MediaRec : Type where
  mid : String
  mtype : String
  title : String
  filePath : String
  originalName : String
  mimeType : String
  persons : List String
  deriving DecidableEq, Repr

/-- Inline OBJE handling: find the FILE child; when it has a truthy
value, build the new Media record (`type` from `determineMediaType`,
MIME from the FORM child or the path, `persons` scoped to this one
person); otherwise nothing is created. -/
def inlineMedia (freshId : Nat → String) (personId : String) (k : Nat)
    (cs : List GedcomNode) : Option MediaRec :=
  match findType cs "FILE" with
  | none => none
  | some f =>
    if jsOr f.value "" = "" then none
    else
      let filePath := jsOr f.value ""
      let mimeType := jsOr ((findType cs "FORM").bind (fun n => n.value))
        (getMimeTypeFromPath filePath)
      some
        { mid := freshId k, mtype := determineMediaType filePath mimeType,
          title := basenameStr filePath, filePath := filePath,
          originalName := basenameStr filePath, mimeType := mimeType,
          persons := [personId] }

/-- Loop over one individual's OBJE children, with `k` counting the
inline Media records created so far (to draw fresh ids): a truthy xref
found in the media map links the existing record (collecting the id and
the back-reference update), otherwise a node with children is treated
as inline media.  Returns (person media ids, new Media records,
existing-Media ids whose `persons` set gains this person). -/
def linkRefs (mediaMap : String → Option String) (freshId : Nat → String)
    (personId : String) : List GedcomNode → Nat →
      List String × List MediaRec × List String
  | [], _ => ([], [], [])
  | mediaRef :: rest, k =>
    let mediaXref := jsOr mediaRef.dataValue (jsOr mediaRef.value "")
    if mediaXref ≠ "" ∧ (mediaMap mediaXref).isSome then
      let dbId := (mediaMap mediaXref).getD ""
      let r := linkRefs mediaMap freshId personId rest k
      (dbId :: r.1, r.2.1, dbId :: r.2.2)
    else
      match mediaRef.children with
      | some cs =>
        match inlineMedia freshId personId k cs with
        | some m =>
          let r := linkRefs mediaMap freshId personId rest (k + 1)
          (m.mid :: r.1, m :: r.2.1, r.2.2)
        | none => linkRefs mediaMap freshId personId rest k
      | none => linkRefs mediaMap freshId personId rest k

/-- The per-individual body of `linkMediaObjects`: scan the OBJE
children. -/
def linkMediaForIndividual (mediaMap : String → Option String)
    (freshId : Nat → String) (personId : String) (individual : GedcomNode) :
    List String × List MediaRec × List String :=
  linkRefs mediaMap freshId personId
    (filterType (childrenOf individual) "OBJE") 0

/-- MongoDB `$addToSet` with `$each`: append the ids not already
present, in order. -/
def addToSet (cur : List String) : List String → List String
  | [] => cur
  | x :: xs => if cur.contains x then addToSet cur xs else addToSet (cur ++ [x]) xs

/-- The individual's `media` set after linking: the collected ids added
to the initially empty set. -/
def personMediaAfterLink (mediaMap : String → Option String)
    (freshId : Nat → String) (personId : String) (individual : GedcomNode) :
    List String :=
  addToSet [] (linkMediaForIndividual mediaMap freshId personId individual).1

/-- Claim C8: for an individual whose only OBJE child is inline (its
xref lookup key is empty) with a FILE child valued `"photo.jpg"`, media
linking leaves the individual's media set with exactly one fresh Media
id, and the one Media record created carries that id, type "Photo"
(derived from the `.jpg` extension) and a `persons` set holding exactly
this individual's person id. -/
theorem C8_inline_photo_media (mediaMap : String → Option String)
    (freshId : Nat → String) (personId : String) (individual : GedcomNode)
    (m : GedcomNode) (cs : List GedcomNode) (f : GedcomNode)
    (hobj : filterType (childrenOf individual) "OBJE" = [m])
    (hxref : jsOr m.dataValue (jsOr m.value "") = "")
    (hcs : m.children = some cs)
    (hfile : findType cs "FILE" = some f)
    (hval : f.value = some "photo.jpg") :
    personMediaAfterLink mediaMap freshId personId individual = [freshId 0] ∧
    ((linkMediaForIndividual mediaMap freshId personId individual).2.1).length = 1 ∧
    (∀ mr ∈ (linkMediaForIndividual mediaMap freshId personId individual).2.1,
      mr.mid = freshId 0 ∧ mr.mtype = "Photo" ∧ mr.persons = [personId]) := by
  have hinl : inlineMedia freshId personId 0 cs =
      some
        { mid := freshId 0,
          mtype := determineMediaType "photo.jpg"
            (jsOr ((findType cs "FORM").bind (fun n => n.value))
              (getMimeTypeFromPath "photo.jpg")),
          title := basenameStr "photo.jpg", filePath := "photo.jpg",
          originalName := basenameStr "photo.jpg",
          mimeType := jsOr ((findType cs "FORM").bind (fun n => n.value))
            (getMimeTypeFromPath "photo.jpg"),
          persons := [personId] } := by
    unfold inlineMedia
    rw [hfile]
    dsimp only
    rw [hval]
    rfl
  have hphoto : ∀ mt, determineMediaType "photo.jpg" mt = "Photo" := fun mt => rfl
  have hlink : linkMediaForIndividual mediaMap freshId personId individual =
      ([freshId 0],
        [{ mid := freshId 0,
           mtype := determineMediaType "photo.jpg"
             (jsOr ((findType cs "FORM").bind (fun n => n.value))
               (getMimeTypeFromPath "photo.jpg")),
           title := basenameStr "photo.jpg", filePath := "photo.jpg",
           originalName := basenameStr "photo.jpg",
           mimeType := jsOr ((findType cs "FORM").bind (fun n => n.value))
             (getMimeTypeFromPath "photo.jpg"),
           persons := [personId] }], []) := by
    unfold linkMediaForIndividual
    rw [hobj]
    unfold linkRefs
    rw [if_neg (by simp [hxref])]
    rw [hcs]
    dsimp only
    rw [hinl]
    rfl
  refine ⟨?_, ?_, ?_⟩
  · unfold personMediaAfterLink
    rw [hlink]
    rfl
  · rw [hlink]
    rfl
  · intro mr hmr
    rw [hlink] at hmr
    rcases List.mem_cons.mp hmr with he | hn
    · subst he
      refine ⟨rfl, ?_, rfl⟩
      exact hphoto (jsOr ((findType cs "FORM").bind (fun n => n.value))
        (getMimeTypeFromPath "photo.jpg"))
    · simp at hn

/-- Concrete inline OBJE individual for the C8 witness. -/
def indC8 : GedcomNode :=
  .mk "INDI" none none none (some "@I1@")
    (some [.mk "OBJE" none none none none
      (some [.mk "FILE" (some "photo.jpg") none none none none])])

/-- Witness for C8 at the concrete individual. -/
theorem C8_inline_photo_media_witness :
    personMediaAfterLink (fun _ => none) (fun _ => "M0") "P1" indC8 = ["M0"] ∧
    ((linkMediaForIndividual (fun _ => none) (fun _ => "M0") "P1" indC8).2.1).length = 1 ∧
    (∀ mr ∈ (linkMediaForIndividual (fun _ => none) (fun _ => "M0") "P1" indC8).2.1,
      mr.mid = "M0" ∧ mr.mtype = "Photo" ∧ mr.persons = ["P1"]) :=
  C8_inline_photo_media (fun _ => none) (fun _ => "M0") "P1" indC8
    (.mk "OBJE" none none none none
      (some [.mk "FILE" (some "photo.jpg") none none none none]))
    [.mk "FILE" (some "photo.jpg") none none none none]
    (.mk "FILE" (some "photo.jpg") none none none none)
    rfl rfl rfl rfl rfl

end TView
